import Mathlib

/-!
Verification of the `unreq` cancellation registry.

The development shallowly embeds the two registry backends of the
repository:

* `InMemoryCancellationRegistry` models `src/inMemoryCancellationRegistry.ts`:
  a keyed map of entries, a keyed map of timer handles (`timers`), and the
  list of timeouts currently scheduled in the runtime (`pending`).  A timer
  handle is identified with the absolute time at which it fires.
* `RedisCancellationRegistry` models `src/redisCancellationRegistry.ts`:
  a key-value store holding one serialized entry per key
  `"unreq:" ++ requestId`.  JSON serialization of the record
  `\x7bstatus, dbIdentifier?\x7d` is modelled as the identity.

The user-supplied asynchronous cancellation hook is modelled as an oracle
`Hook` returning either `.ok b` (the promise resolved with the boolean `b`)
or `.err` (the promise rejected).  `markForCancellation` returns the
resulting state, the list of hook invocations it performed, and whether a
hook rejection propagated to its caller (`threw`).
-/

namespace Unreq

/-- The four lifecycle states of a registry entry
(`'active' | 'cancelling' | 'cancelled' | 'finished'` in `src/types.ts`). -/
inductive Status
  | active
  | cancelling
  | cancelled
  | finished
  deriving DecidableEq

/-- Rank of a status along the lifecycle
`active → cancelling → cancelled / finished`; used to state monotonicity. -/
def Status.rank : Status → Nat
  | .active => 0
  | .cancelling => 1
  | .cancelled => 2
  | .finished => 3

/-- One registry entry: the record
`\x7b status: ...; dbIdentifier?: any \x7d` stored per request identifier.
`α` is the opaque type of the operation identifier. -/
structure Entry (α : Type) where
  status : Status
  dbIdentifier : Option α
  deriving DecidableEq

/-- Outcome of one invocation of the user-supplied `DbCancellationHook`
promise: resolution with a boolean, or rejection. -/
inductive HookResult
  | ok (success : Bool)
  | err
  deriving DecidableEq

/-- The `DbCancellationHook` of `src/types.ts`, as an oracle giving the
outcome of the invocation at each `(requestId, dbIdentifier)` pair. -/
def Hook (α : Type) : Type := String → α → HookResult

/-- Result of a `markForCancellation` call: the state after the call, the
hook invocations performed during the call (as `(requestId, dbIdentifier)`
pairs), and whether a hook rejection propagated to the caller. -/
structure CancelOut (σ : Type) (α : Type) where
  state : σ
  hookCalls : List (String × α)
  threw : Bool

/-- State of `InMemoryCancellationRegistry`
(`src/inMemoryCancellationRegistry.ts`): the `entries` map, the `timers`
map of the most recently created timer handle per key (identified with its
firing time), the multiset of timeouts scheduled in the runtime, and the
`ttl` in the registry's time unit. -/
structure InMemoryCancellationRegistry (α : Type) where
  entries : String → Option (Entry α)
  timers : String → Option Nat
  pending : List (String × Nat)
  ttl : Nat

namespace InMemoryCancellationRegistry

variable {α : Type}

/-- A registry with no entries and no scheduled timers, as produced by the
constructor `new InMemoryCancellationRegistry(hook, ttlSeconds)`. -/
def init (ttl : Nat) : InMemoryCancellationRegistry α :=
  { entries := fun _ => none
    timers := fun _ => none
    pending := []
    ttl := ttl }

/-- Models `register(requestId)`: store a fresh `\x7b status: 'active' \x7d` entry,
schedule a deletion timeout at `now + ttl`, and record its handle.  The
code does not clear a previously scheduled timeout for the same key, so
the old timeout stays pending. -/
def register (s : InMemoryCancellationRegistry α) (now : Nat) (id : String) :
    InMemoryCancellationRegistry α :=
  { s with
    entries := fun k => if k = id then some ⟨.active, none⟩ else s.entries k
    timers := fun k => if k = id then some (now + s.ttl) else s.timers k
    pending := (id, now + s.ttl) :: s.pending }

/-- In-place mutation `entry.status = st` of the entry stored under `id`. -/
def setStatus (s : InMemoryCancellationRegistry α) (id : String) (st : Status) :
    InMemoryCancellationRegistry α :=
  { s with
    entries := fun k =>
      if k = id then (s.entries k).map (fun e => { e with status := st })
      else s.entries k }

/-- Models `markForCancellation(requestId)`: no-op unless the entry exists with
status `'active'`; otherwise set status `'cancelling'`, invoke the hook
when a `dbIdentifier` is attached, and set status `'cancelled'`.  There is
no try/catch around the `await this.hook(...)`: when the hook rejects, the
line `entry.status = 'cancelled'` is not reached and the rejection
propagates to the caller. -/
def markForCancellation (hook : Hook α) (s : InMemoryCancellationRegistry α)
    (id : String) : CancelOut (InMemoryCancellationRegistry α) α :=
  match s.entries id with
  | none => ⟨s, [], false⟩
  | some e =>
    if e.status = .active then
      let s1 := s.setStatus id .cancelling
      match e.dbIdentifier with
      | none => ⟨s1.setStatus id .cancelled, [], false⟩
      | some x =>
        match hook id x with
        | .err => ⟨s1, [(id, x)], true⟩
        | .ok _ => ⟨s1.setStatus id .cancelled, [(id, x)], false⟩
    else ⟨s, [], false⟩

/-- Models `associateDbIdentifier(requestId, dbIdentifier)`: throw when no entry
exists, otherwise mutate `entry.dbIdentifier`. -/
def associateDbIdentifier (s : InMemoryCancellationRegistry α) (id : String)
    (x : α) : Except Unit (InMemoryCancellationRegistry α) :=
  match s.entries id with
  | none => .error ()
  | some e =>
    .ok { s with
          entries := fun k =>
            if k = id then some ⟨e.status, some x⟩ else s.entries k }

/-- Removal of one scheduled timeout, as performed by `clearTimeout` on a
timer handle. -/
def removeOne (p : String × Nat) : List (String × Nat) → List (String × Nat)
  | [] => []
  | q :: l => if q = p then l else q :: removeOne p l

/-- Models `markAsFinished(requestId)`: no-op when the entry is absent; otherwise
clear the tracked timeout, delete the entry and the timer handle. -/
def markAsFinished (s : InMemoryCancellationRegistry α) (id : String) :
    InMemoryCancellationRegistry α :=
  match s.entries id with
  | none => s
  | some _ =>
    { s with
      entries := fun k => if k = id then none else s.entries k
      timers := fun k => if k = id then none else s.timers k
      pending :=
        match s.timers id with
        | some t => removeOne (id, t) s.pending
        | none => s.pending }

/-- Models `getStatus(requestId)`: `entry?.status ?? 'finished'`. -/
def getStatus (s : InMemoryCancellationRegistry α) (id : String) : Status :=
  match s.entries id with
  | some e => e.status
  | none => .finished

end InMemoryCancellationRegistry

/-- State of `RedisCancellationRegistry`
(`src/redisCancellationRegistry.ts`): the key-value store, holding one
deserialized entry per key. -/
structure RedisCancellationRegistry (α : Type) where
  store : String → Option (Entry α)

namespace RedisCancellationRegistry

variable {α : Type}

/-- Models `private getKey(requestId)`: prepend the namespace `'unreq:'`. -/
def getKey (id : String) : String := "unreq:" ++ id

/-- An empty store. -/
def init : RedisCancellationRegistry α := ⟨fun _ => none⟩

/-- Models `redisClient.set(key, value, 'EX', ttl)`, with serialization modelled
as the identity. -/
def set (s : RedisCancellationRegistry α) (k : String) (e : Entry α) :
    RedisCancellationRegistry α :=
  ⟨fun k' => if k' = k then some e else s.store k'⟩

/-- Models `redisClient.del(key)`. -/
def del (s : RedisCancellationRegistry α) (k : String) :
    RedisCancellationRegistry α :=
  ⟨fun k' => if k' = k then none else s.store k'⟩

/-- Models `register(requestId)`: write `\x7b status: 'active' \x7d` under the
namespaced key (with the configured TTL). -/
def register (s : RedisCancellationRegistry α) (id : String) :
    RedisCancellationRegistry α :=
  s.set (getKey id) ⟨.active, none⟩

/-- Models `markForCancellation(requestId)`: read the entry; return when absent or
not `'active'`; otherwise write it back with status `'cancelling'`, invoke
the hook when a `dbIdentifier` is attached, and write status `'cancelled'`.
As in the in-memory backend, a hook rejection propagates and the final
`'cancelled'` write is not reached. -/
def markForCancellation (hook : Hook α) (s : RedisCancellationRegistry α)
    (id : String) : CancelOut (RedisCancellationRegistry α) α :=
  match s.store (getKey id) with
  | none => ⟨s, [], false⟩
  | some e =>
    if e.status = .active then
      let s1 := s.set (getKey id) ⟨.cancelling, e.dbIdentifier⟩
      match e.dbIdentifier with
      | none => ⟨s1.set (getKey id) ⟨.cancelled, e.dbIdentifier⟩, [], false⟩
      | some x =>
        match hook id x with
        | .err => ⟨s1, [(id, x)], true⟩
        | .ok _ => ⟨s1.set (getKey id) ⟨.cancelled, e.dbIdentifier⟩, [(id, x)], false⟩
    else ⟨s, [], false⟩

/-- Models `associateDbIdentifier(requestId, dbIdentifier)`: read the entry; throw
when absent; otherwise write it back with the identifier attached. -/
def associateDbIdentifier (s : RedisCancellationRegistry α) (id : String)
    (x : α) : Except Unit (RedisCancellationRegistry α) :=
  match s.store (getKey id) with
  | none => .error ()
  | some e => .ok (s.set (getKey id) ⟨e.status, some x⟩)

/-- Models `markAsFinished(requestId)`: delete the key. -/
def markAsFinished (s : RedisCancellationRegistry α) (id : String) :
    RedisCancellationRegistry α :=
  s.del (getKey id)

/-- Models `getStatus(requestId)`: read the key, treating absence as
`'finished'`. -/
def getStatus (s : RedisCancellationRegistry α) (id : String) : Status :=
  match s.store (getKey id) with
  | none => .finished
  | some e => e.status

end RedisCancellationRegistry

/-- Outcome of the store write performed by the distributed backend's
`register`: the `redisClient.set` promise resolves or rejects. -/
inductive WriteOutcome
  | ok
  | fail
  deriving DecidableEq

/-- Model of `RedisCancellationRegistry.register` with a fallible store write: on a
write failure the rejection propagates to the caller of `register`
(`await this.redisClient.set(...)` has no try/catch). -/
def RedisCancellationRegistry.registerF {α : Type} (w : WriteOutcome)
    (s : RedisCancellationRegistry α) (id : String) :
    Except Unit (RedisCancellationRegistry α) :=
  match w with
  | .ok => .ok (s.register id)
  | .fail => .error ()

/-- The registration step of `createAutoCancellationMiddleware`
(`src/index.ts`): call `register` and attach a rejection handler that logs
`'Failed to register request ID:'`, so nothing propagates further.  The
result is the store state together with the log lines emitted. -/
def middlewareRegister {α : Type} (w : WriteOutcome)
    (s : RedisCancellationRegistry α) (id : String) :
    RedisCancellationRegistry α × List String :=
  match s.registerF w id with
  | .ok s1 => (s1, [])
  | .error _ => (s, ["Failed to register request ID:"])

/-- Boolean success test on `Except`, a helper used to state counterexamples. -/
def isOkE {ε σ : Type} : Except ε σ → Bool
  | .ok _ => true
  | .error _ => false

/-- One call against the registry facade, as issued by the ingress layer:
`register`, `associateDbIdentifier`, `markForCancellation` or
`markAsFinished`.  `reg` carries the time at which it is issued (used only
by the in-memory backend's expiry timer). -/
inductive Op (α : Type)
  | reg (id : String) (now : Nat)
  | assoc (id : String) (x : α)
  | cancel (id : String)
  | finish (id : String)
  deriving DecidableEq

/-- Whether the operation is a `register` call for the given id. -/
def Op.isRegOn {α : Type} : Op α → String → Bool
  | .reg i _, id => i = id
  | _, _ => false

namespace InMemoryCancellationRegistry

variable {α : Type}

/-- Effect of one facade call on the in-memory registry, together with the
hook invocations it performs.  A thrown `associateDbIdentifier` and a
propagated hook rejection leave the state as the call left it; both are
caught by the callers in this repository. -/
def step (hook : Hook α) (s : InMemoryCancellationRegistry α) (op : Op α) :
    InMemoryCancellationRegistry α × List (String × α) :=
  match op with
  | .reg id now => (s.register now id, [])
  | .assoc id x =>
    match s.associateDbIdentifier id x with
    | .ok s1 => (s1, [])
    | .error _ => (s, [])
  | .cancel id =>
    let r := markForCancellation hook s id
    (r.state, r.hookCalls)
  | .finish id => (s.markAsFinished id, [])

/-- State after a sequence of facade calls. -/
def run (hook : Hook α) (s : InMemoryCancellationRegistry α)
    (ops : List (Op α)) : InMemoryCancellationRegistry α :=
  ops.foldl (fun s1 op => (step hook s1 op).1) s

/-- Runs `n` successive `markForCancellation(id)` calls; returns the final state
and the total number of hook invocations performed. -/
def cancelN (hook : Hook α) (s : InMemoryCancellationRegistry α)
    (id : String) : Nat → InMemoryCancellationRegistry α × Nat
  | 0 => (s, 0)
  | n + 1 =>
    let r := markForCancellation hook s id
    let p := cancelN hook r.state id n
    (p.1, r.hookCalls.length + p.2)

end InMemoryCancellationRegistry

namespace RedisCancellationRegistry

variable {α : Type}

/-- Effect of one facade call on the distributed registry, together with
the hook invocations it performs. -/
def step (hook : Hook α) (s : RedisCancellationRegistry α) (op : Op α) :
    RedisCancellationRegistry α × List (String × α) :=
  match op with
  | .reg id _ => (s.register id, [])
  | .assoc id x =>
    match s.associateDbIdentifier id x with
    | .ok s1 => (s1, [])
    | .error _ => (s, [])
  | .cancel id =>
    let r := markForCancellation hook s id
    (r.state, r.hookCalls)
  | .finish id => (s.markAsFinished id, [])

/-- State after a sequence of facade calls. -/
def run (hook : Hook α) (s : RedisCancellationRegistry α)
    (ops : List (Op α)) : RedisCancellationRegistry α :=
  ops.foldl (fun s1 op => (step hook s1 op).1) s

/-- Runs `n` successive `markForCancellation(id)` calls; returns the final state
and the total number of hook invocations performed. -/
def cancelN (hook : Hook α) (s : RedisCancellationRegistry α)
    (id : String) : Nat → RedisCancellationRegistry α × Nat
  | 0 => (s, 0)
  | n + 1 =>
    let r := markForCancellation hook s id
    let p := cancelN hook r.state id n
    (p.1, r.hookCalls.length + p.2)

end RedisCancellationRegistry

/-- Firing times of the timeouts scheduled for a given id. -/
def firesFor (id : String) (l : List (String × Nat)) : List Nat :=
  (l.filter (fun p => decide (p.1 = id))).map (fun p => p.2)

/-- Minimum of a list of times, `none` for the empty list. -/
def minList : List Nat → Option Nat
  | [] => none
  | t :: ts =>
    match minList ts with
    | none => some t
    | some m => some (min t m)

/-- Number of scheduled timeouts equal to the given `(id, fireTime)`
pair. -/
def countTimer (p : String × Nat) (l : List (String × Nat)) : Nat :=
  l.countP (fun q => decide (q = p))

/-- The effective expiry of an entry: the earliest scheduled timeout for
its id — the time at which the runtime will delete the entry absent an
explicit finish. -/
def InMemoryCancellationRegistry.effExpiry {α : Type}
    (s : InMemoryCancellationRegistry α) (id : String) : Option Nat :=
  minList (firesFor id s.pending)

/-- Hook oracle whose promise always resolves with success. -/
def hookOkW : Hook Nat := fun _ _ => .ok true

/-- Hook oracle whose promise always rejects. -/
def hookErrW : Hook Nat := fun _ _ => .err

/-- Empty in-memory registry with the default ttl. -/
def memW : InMemoryCancellationRegistry Nat := InMemoryCancellationRegistry.init 3600

/-- Empty distributed registry. -/
def redisW : RedisCancellationRegistry Nat := RedisCancellationRegistry.init

/-- In-memory registry holding one active entry for `"r"` with operation
identifier `42` attached. -/
def memActiveW : InMemoryCancellationRegistry Nat :=
  { entries := fun k => if k = "r" then some ⟨.active, some 42⟩ else none
    timers := fun _ => none
    pending := []
    ttl := 3600 }

/-- Distributed registry holding one active entry for `"r"` with operation
identifier `42` attached. -/
def redisActiveW : RedisCancellationRegistry Nat :=
  ⟨fun k =>
    if k = RedisCancellationRegistry.getKey "r" then some ⟨.active, some 42⟩
    else none⟩

/-- In-memory registry after registering `"r"` and completing a
cancellation (no identifier attached, hook never invoked): the entry for
`"r"` is `'cancelled'`. -/
def memCancelledW : InMemoryCancellationRegistry Nat :=
  InMemoryCancellationRegistry.run hookOkW memW [Op.reg "r" 0, Op.cancel "r"]

theorem Status.rank_le_three (st : Status) : st.rank ≤ 3 := by
  cases st <;> simp [Status.rank]

theorem Status.rank_eq_three (st : Status) (h : st.rank = 3) : st = .finished := by
  cases st <;> simp_all [Status.rank]

theorem RedisCancellationRegistry.getKey_inj {a b : String}
    (h : RedisCancellationRegistry.getKey a = RedisCancellationRegistry.getKey b) :
    a = b := by
  have hd : ("unreq:" ++ a).data = ("unreq:" ++ b).data := congrArg String.data h
  simp only [String.data_append] at hd
  exact String.ext (List.append_cancel_left hd)

namespace InMemoryCancellationRegistry

variable {α : Type}

theorem getStatus_of_entry (s : InMemoryCancellationRegistry α) (id : String)
    (e : Entry α) (h : s.entries id = some e) : s.getStatus id = e.status := by
  simp [getStatus, h]

theorem getStatus_of_absent (s : InMemoryCancellationRegistry α) (id : String)
    (h : s.entries id = none) : s.getStatus id = .finished := by
  simp [getStatus, h]

theorem setStatus_entries_self (s : InMemoryCancellationRegistry α)
    (id : String) (st : Status) :
    (s.setStatus id st).entries id
      = (s.entries id).map (fun e => { e with status := st }) := by
  simp [setStatus]

theorem setStatus_entries_ne (s : InMemoryCancellationRegistry α)
    (id : String) (st : Status) (k : String) (h : k ≠ id) :
    (s.setStatus id st).entries k = s.entries k := by
  simp [setStatus, h]

theorem mfc_noop (hook : Hook α) (s : InMemoryCancellationRegistry α)
    (id : String) (h : s.getStatus id ≠ .active) :
    markForCancellation hook s id = ⟨s, [], false⟩ := by
  unfold markForCancellation
  split
  · rfl
  · rename_i e he
    rw [if_neg]
    intro hact
    exact h ((getStatus_of_entry s id e he).trans hact)

theorem mfc_active_err (hook : Hook α) (s : InMemoryCancellationRegistry α)
    (id : String) (x : α) (hs : s.entries id = some ⟨.active, some x⟩)
    (hk : hook id x = .err) :
    markForCancellation hook s id
      = ⟨s.setStatus id .cancelling, [(id, x)], true⟩ := by
  simp [markForCancellation, hs, hk]

theorem mfc_active_ok (hook : Hook α) (s : InMemoryCancellationRegistry α)
    (id : String) (x : α) (b : Bool)
    (hs : s.entries id = some ⟨.active, some x⟩) (hk : hook id x = .ok b) :
    markForCancellation hook s id
      = ⟨(s.setStatus id .cancelling).setStatus id .cancelled, [(id, x)], false⟩ := by
  simp [markForCancellation, hs, hk]

theorem mfc_active_noId (hook : Hook α) (s : InMemoryCancellationRegistry α)
    (id : String) (hs : s.entries id = some ⟨.active, none⟩) :
    markForCancellation hook s id
      = ⟨(s.setStatus id .cancelling).setStatus id .cancelled, [], false⟩ := by
  simp [markForCancellation, hs]

theorem mfc_active_once (hook : Hook α) (s : InMemoryCancellationRegistry α)
    (id : String) (x : α) (hs : s.entries id = some ⟨.active, some x⟩) :
    (markForCancellation hook s id).hookCalls.length = 1
      ∧ (markForCancellation hook s id).state.getStatus id ≠ .active := by
  cases hk : hook id x with
  | err =>
    rw [mfc_active_err hook s id x hs hk]
    refine ⟨rfl, ?_⟩
    rw [getStatus_of_entry _ id ⟨.cancelling, some x⟩]
    · intro hcon
      exact Status.noConfusion hcon
    · rw [setStatus_entries_self, hs]
      rfl
  | ok b =>
    rw [mfc_active_ok hook s id x b hs hk]
    refine ⟨rfl, ?_⟩
    rw [getStatus_of_entry _ id ⟨.cancelled, some x⟩]
    · intro hcon
      exact Status.noConfusion hcon
    · rw [setStatus_entries_self, setStatus_entries_self, hs]
      rfl

theorem cancelN_noop (hook : Hook α) (s : InMemoryCancellationRegistry α)
    (id : String) (n : Nat) (h : s.getStatus id ≠ .active) :
    cancelN hook s id n = (s, 0) := by
  induction n with
  | zero => rfl
  | succ n ih =>
    unfold cancelN
    rw [mfc_noop hook s id h]
    simp [ih]

theorem finish_getStatus (s : InMemoryCancellationRegistry α) (id : String) :
    (s.markAsFinished id).getStatus id = .finished := by
  unfold markAsFinished
  split
  · rename_i he
    exact getStatus_of_absent s id he
  · rename_i e he
    simp [getStatus]

theorem finish_entries_self (s : InMemoryCancellationRegistry α) (id : String) :
    (s.markAsFinished id).entries id = none := by
  unfold markAsFinished
  split
  · rename_i he
    exact he
  · simp

end InMemoryCancellationRegistry

namespace RedisCancellationRegistry

variable {α : Type}

theorem getStatus_of_entryR (s : RedisCancellationRegistry α) (id : String)
    (e : Entry α) (h : s.store (getKey id) = some e) :
    s.getStatus id = e.status := by
  simp [getStatus, h]

theorem getStatus_of_absentR (s : RedisCancellationRegistry α) (id : String)
    (h : s.store (getKey id) = none) : s.getStatus id = .finished := by
  simp [getStatus, h]

theorem set_store_self (s : RedisCancellationRegistry α) (k : String)
    (e : Entry α) : (s.set k e).store k = some e := by
  simp [set]

theorem set_store_ne (s : RedisCancellationRegistry α) (k : String)
    (e : Entry α) (k' : String) (h : k' ≠ k) :
    (s.set k e).store k' = s.store k' := by
  simp [set, h]

theorem mfc_noopR (hook : Hook α) (s : RedisCancellationRegistry α)
    (id : String) (h : s.getStatus id ≠ .active) :
    markForCancellation hook s id = ⟨s, [], false⟩ := by
  unfold markForCancellation
  split
  · rfl
  · rename_i e he
    rw [if_neg]
    intro hact
    exact h ((getStatus_of_entryR s id e he).trans hact)

theorem mfc_active_errR (hook : Hook α) (s : RedisCancellationRegistry α)
    (id : String) (x : α) (hs : s.store (getKey id) = some ⟨.active, some x⟩)
    (hk : hook id x = .err) :
    markForCancellation hook s id
      = ⟨s.set (getKey id) ⟨.cancelling, some x⟩, [(id, x)], true⟩ := by
  simp [markForCancellation, hs, hk]

theorem mfc_active_okR (hook : Hook α) (s : RedisCancellationRegistry α)
    (id : String) (x : α) (b : Bool)
    (hs : s.store (getKey id) = some ⟨.active, some x⟩)
    (hk : hook id x = .ok b) :
    markForCancellation hook s id
      = ⟨(s.set (getKey id) ⟨.cancelling, some x⟩).set (getKey id)
            ⟨.cancelled, some x⟩, [(id, x)], false⟩ := by
  simp [markForCancellation, hs, hk]

theorem mfc_active_noIdR (hook : Hook α) (s : RedisCancellationRegistry α)
    (id : String) (hs : s.store (getKey id) = some ⟨.active, none⟩) :
    markForCancellation hook s id
      = ⟨(s.set (getKey id) ⟨.cancelling, none⟩).set (getKey id)
            ⟨.cancelled, none⟩, [], false⟩ := by
  simp [markForCancellation, hs]

theorem mfc_active_onceR (hook : Hook α) (s : RedisCancellationRegistry α)
    (id : String) (x : α) (hs : s.store (getKey id) = some ⟨.active, some x⟩) :
    (markForCancellation hook s id).hookCalls.length = 1
      ∧ (markForCancellation hook s id).state.getStatus id ≠ .active := by
  cases hk : hook id x with
  | err =>
    rw [mfc_active_errR hook s id x hs hk]
    refine ⟨rfl, ?_⟩
    rw [getStatus_of_entryR _ id ⟨.cancelling, some x⟩ (set_store_self s _ _)]
    intro hcon
    exact Status.noConfusion hcon
  | ok b =>
    rw [mfc_active_okR hook s id x b hs hk]
    refine ⟨rfl, ?_⟩
    rw [getStatus_of_entryR _ id ⟨.cancelled, some x⟩ (set_store_self _ _ _)]
    intro hcon
    exact Status.noConfusion hcon

theorem cancelN_noopR (hook : Hook α) (s : RedisCancellationRegistry α)
    (id : String) (n : Nat) (h : s.getStatus id ≠ .active) :
    cancelN hook s id n = (s, 0) := by
  induction n with
  | zero => rfl
  | succ n ih =>
    unfold cancelN
    rw [mfc_noopR hook s id h]
    simp [ih]

theorem finish_store_self (s : RedisCancellationRegistry α) (id : String) :
    (s.markAsFinished id).store (getKey id) = none := by
  simp [markAsFinished, del]

theorem finish_getStatusR (s : RedisCancellationRegistry α) (id : String) :
    (s.markAsFinished id).getStatus id = .finished :=
  getStatus_of_absentR _ id (finish_store_self s id)

end RedisCancellationRegistry

namespace InMemoryCancellationRegistry

variable {α : Type}

theorem mfc_state_entries_ne (hook : Hook α) (s : InMemoryCancellationRegistry α)
    (i k : String) (h : k ≠ i) :
    (markForCancellation hook s i).state.entries k = s.entries k := by
  unfold markForCancellation
  split
  · rfl
  · rename_i e he
    by_cases hact : e.status = .active
    · rw [if_pos hact]
      cases hd : e.dbIdentifier with
      | none => simp [setStatus, h]
      | some x =>
        cases hk : hook i x with
        | err => simp [hk, setStatus, h]
        | ok b => simp [hk, setStatus, h]
    · rw [if_neg hact]

theorem finish_entries_ne (s : InMemoryCancellationRegistry α) (i k : String)
    (h : k ≠ i) : (s.markAsFinished i).entries k = s.entries k := by
  unfold markAsFinished
  split
  · rfl
  · simp [h]

theorem step_rank_mono (hook : Hook α) (s : InMemoryCancellationRegistry α)
    (op : Op α) (id : String) (h : op.isRegOn id = false) :
    Status.rank (s.getStatus id)
      ≤ Status.rank ((step hook s op).1.getStatus id) := by
  cases op with
  | reg i now =>
    have hne : id ≠ i := by
      simp only [Op.isRegOn, decide_eq_false_iff_not] at h
      exact fun hcon => h hcon.symm
    have heq : (s.register now i).entries id = s.entries id := by
      simp [register, hne]
    simp [step, getStatus, heq]
  | assoc i x =>
    cases he : s.entries i with
    | none => simp [step, associateDbIdentifier, he]
    | some e =>
      have hstep : (step hook s (Op.assoc i x)).1
          = { s with entries := fun k =>
                if k = i then some ⟨e.status, some x⟩ else s.entries k } := by
        simp [step, associateDbIdentifier, he]
      rw [hstep]
      by_cases hid : id = i
      · subst hid
        rw [getStatus_of_entry s id e he]
        simp [getStatus]
      · simp [getStatus, hid]
  | cancel i =>
    by_cases hid : id = i
    · subst hid
      cases he : s.entries id with
      | none =>
        have hna : s.getStatus id ≠ .active := by
          rw [getStatus_of_absent s id he]
          exact fun hcon => Status.noConfusion hcon
        rw [show (step hook s (Op.cancel id)).1
              = (markForCancellation hook s id).state from rfl,
            mfc_noop hook s id hna]
      | some e =>
        by_cases hact : e.status = .active
        · rw [getStatus_of_entry s id e he, hact]
          exact Nat.zero_le _
        · have hna : s.getStatus id ≠ .active := by
            rw [getStatus_of_entry s id e he]
            exact hact
          rw [show (step hook s (Op.cancel id)).1
                = (markForCancellation hook s id).state from rfl,
              mfc_noop hook s id hna]
    · have heq : (step hook s (Op.cancel i)).1.entries id = s.entries id :=
        mfc_state_entries_ne hook s i id hid
      simp [getStatus, heq]
  | finish i =>
    by_cases hid : id = i
    · subst hid
      rw [show (step hook s (Op.finish id)).1 = s.markAsFinished id from rfl,
          finish_getStatus]
      exact Status.rank_le_three _
    · have heq : (step hook s (Op.finish i)).1.entries id = s.entries id :=
        finish_entries_ne s i id hid
      simp [getStatus, heq]

theorem run_rank_mono (hook : Hook α) (s : InMemoryCancellationRegistry α)
    (ops : List (Op α)) (id : String)
    (h : ∀ op ∈ ops, op.isRegOn id = false) :
    Status.rank (s.getStatus id)
      ≤ Status.rank ((run hook s ops).getStatus id) := by
  induction ops generalizing s with
  | nil => exact le_refl _
  | cons op ops ih =>
    have h1 : op.isRegOn id = false := h op (List.mem_cons_self op ops)
    have h2 : ∀ op1 ∈ ops, op1.isRegOn id = false :=
      fun op1 hm => h op1 (List.mem_cons_of_mem _ hm)
    have hrun : run hook s (op :: ops) = run hook (step hook s op).1 ops := by
      simp [run]
    rw [hrun]
    exact le_trans (step_rank_mono hook s op id h1) (ih _ h2)

end InMemoryCancellationRegistry

namespace RedisCancellationRegistry

variable {α : Type}

theorem getKey_ne (i k : String) (h : k ≠ i) : getKey k ≠ getKey i :=
  fun hcon => h (getKey_inj hcon)

theorem mfc_state_store_ne (hook : Hook α) (s : RedisCancellationRegistry α)
    (i k : String) (h : k ≠ i) :
    (markForCancellation hook s i).state.store (getKey k) = s.store (getKey k) := by
  have hkey : getKey k ≠ getKey i := getKey_ne i k h
  unfold markForCancellation
  split
  · rfl
  · rename_i e he
    by_cases hact : e.status = .active
    · rw [if_pos hact]
      cases hd : e.dbIdentifier with
      | none => simp [set, hkey]
      | some x =>
        cases hk : hook i x with
        | err => simp [hk, set, hkey]
        | ok b => simp [hk, set, hkey]
    · rw [if_neg hact]

theorem finish_store_ne (s : RedisCancellationRegistry α) (i k : String)
    (h : k ≠ i) :
    (s.markAsFinished i).store (getKey k) = s.store (getKey k) := by
  have hkey : getKey k ≠ getKey i := getKey_ne i k h
  simp [markAsFinished, del, hkey]

theorem step_rank_monoR (hook : Hook α) (s : RedisCancellationRegistry α)
    (op : Op α) (id : String) (h : op.isRegOn id = false) :
    Status.rank (s.getStatus id)
      ≤ Status.rank ((step hook s op).1.getStatus id) := by
  cases op with
  | reg i now =>
    have hne : id ≠ i := by
      simp only [Op.isRegOn, decide_eq_false_iff_not] at h
      exact fun hcon => h hcon.symm
    have heq : (s.register i).store (getKey id) = s.store (getKey id) :=
      set_store_ne s _ _ _ (getKey_ne i id hne)
    simp [step, getStatus, heq]
  | assoc i x =>
    cases he : s.store (getKey i) with
    | none => simp [step, associateDbIdentifier, he]
    | some e =>
      have hstep : (step hook s (Op.assoc i x)).1
          = s.set (getKey i) ⟨e.status, some x⟩ := by
        simp [step, associateDbIdentifier, he]
      rw [hstep]
      by_cases hid : id = i
      · subst hid
        rw [getStatus_of_entryR s id e he,
            getStatus_of_entryR _ id ⟨e.status, some x⟩ (set_store_self s _ _)]
      · rw [show (s.set (getKey i) ⟨e.status, some x⟩).getStatus id
              = s.getStatus id from by
            simp [getStatus, set_store_ne s _ _ _ (getKey_ne i id hid)]]
  | cancel i =>
    by_cases hid : id = i
    · subst hid
      cases he : s.store (getKey id) with
      | none =>
        have hna : s.getStatus id ≠ .active := by
          rw [getStatus_of_absentR s id he]
          exact fun hcon => Status.noConfusion hcon
        rw [show (step hook s (Op.cancel id)).1
              = (markForCancellation hook s id).state from rfl,
            mfc_noopR hook s id hna]
      | some e =>
        by_cases hact : e.status = .active
        · rw [getStatus_of_entryR s id e he, hact]
          exact Nat.zero_le _
        · have hna : s.getStatus id ≠ .active := by
            rw [getStatus_of_entryR s id e he]
            exact hact
          rw [show (step hook s (Op.cancel id)).1
                = (markForCancellation hook s id).state from rfl,
              mfc_noopR hook s id hna]
    · have heq : (step hook s (Op.cancel i)).1.store (getKey id)
          = s.store (getKey id) := mfc_state_store_ne hook s i id hid
      simp [getStatus, heq]
  | finish i =>
    by_cases hid : id = i
    · subst hid
      rw [show (step hook s (Op.finish id)).1 = s.markAsFinished id from rfl,
          finish_getStatusR]
      exact Status.rank_le_three _
    · have heq : (step hook s (Op.finish i)).1.store (getKey id)
          = s.store (getKey id) := finish_store_ne s i id hid
      simp [getStatus, heq]

theorem run_rank_monoR (hook : Hook α) (s : RedisCancellationRegistry α)
    (ops : List (Op α)) (id : String)
    (h : ∀ op ∈ ops, op.isRegOn id = false) :
    Status.rank (s.getStatus id)
      ≤ Status.rank ((run hook s ops).getStatus id) := by
  induction ops generalizing s with
  | nil => exact le_refl _
  | cons op ops ih =>
    have h1 : op.isRegOn id = false := h op (List.mem_cons_self op ops)
    have h2 : ∀ op1 ∈ ops, op1.isRegOn id = false :=
      fun op1 hm => h op1 (List.mem_cons_of_mem _ hm)
    have hrun : run hook s (op :: ops) = run hook (step hook s op).1 ops := by
      simp [run]
    rw [hrun]
    exact le_trans (step_rank_monoR hook s op id h1) (ih _ h2)

end RedisCancellationRegistry

theorem countTimer_removeOne (p : String × Nat) (l : List (String × Nat))
    (h : countTimer p l ≤ 1) :
    countTimer p (InMemoryCancellationRegistry.removeOne p l) = 0 := by
  induction l with
  | nil => rfl
  | cons q l ih =>
    by_cases hq : q = p
    · subst hq
      have hr : InMemoryCancellationRegistry.removeOne q (q :: l) = l := by
        simp [InMemoryCancellationRegistry.removeOne]
      rw [hr]
      have hc : countTimer q (q :: l) = countTimer q l + 1 := by
        simp [countTimer, List.countP_cons]
      rw [hc] at h
      omega
    · have hr : InMemoryCancellationRegistry.removeOne p (q :: l)
          = q :: InMemoryCancellationRegistry.removeOne p l := by
        simp [InMemoryCancellationRegistry.removeOne, hq]
      rw [hr]
      have h1 : countTimer p (q :: l) = countTimer p l := by
        simp [countTimer, List.countP_cons, hq]
      have h2 : countTimer p (q :: InMemoryCancellationRegistry.removeOne p l)
          = countTimer p (InMemoryCancellationRegistry.removeOne p l) := by
        simp [countTimer, List.countP_cons, hq]
      rw [h2]
      exact ih (h1 ▸ h)

theorem firesFor_cons_self (id : String) (t : Nat) (l : List (String × Nat)) :
    firesFor id ((id, t) :: l) = t :: firesFor id l := by
  simp [firesFor]

theorem firesFor_cons_ne (id k : String) (t : Nat) (l : List (String × Nat))
    (h : k ≠ id) : firesFor id ((k, t) :: l) = firesFor id l := by
  simp [firesFor, h]

namespace InMemoryCancellationRegistry

variable {α : Type}

theorem finish_absent (s : InMemoryCancellationRegistry α) (id : String)
    (h : s.entries id = none) : s.markAsFinished id = s := by
  simp [markAsFinished, h]

theorem finish_idem (s : InMemoryCancellationRegistry α) (id : String) :
    (s.markAsFinished id).markAsFinished id = s.markAsFinished id :=
  finish_absent _ id (finish_entries_self s id)

theorem finish_timers_self (s : InMemoryCancellationRegistry α) (id : String)
    (e : Entry α) (h : s.entries id = some e) :
    (s.markAsFinished id).timers id = none := by
  simp [markAsFinished, h]

theorem finish_pending (s : InMemoryCancellationRegistry α) (id : String)
    (e : Entry α) (t : Nat) (he : s.entries id = some e)
    (ht : s.timers id = some t) :
    (s.markAsFinished id).pending = removeOne (id, t) s.pending := by
  simp [markAsFinished, he, ht]

theorem register_ttl (s : InMemoryCancellationRegistry α) (now : Nat)
    (id : String) : (s.register now id).ttl = s.ttl := rfl

theorem register_entries_self (s : InMemoryCancellationRegistry α) (now : Nat)
    (id : String) : (s.register now id).entries id = some ⟨.active, none⟩ := by
  simp [register]

end InMemoryCancellationRegistry

namespace RedisCancellationRegistry

variable {α : Type}

theorem storeExt {s1 s2 : RedisCancellationRegistry α}
    (h : s1.store = s2.store) : s1 = s2 := by
  cases s1
  cases s2
  cases h
  rfl

theorem finish_absentR (s : RedisCancellationRegistry α) (id : String)
    (h : s.store (getKey id) = none) : s.markAsFinished id = s := by
  apply storeExt
  funext k
  by_cases hk : k = getKey id
  · subst hk
    rw [finish_store_self, h]
  · simp [markAsFinished, del, hk]

theorem finish_idemR (s : RedisCancellationRegistry α) (id : String) :
    (s.markAsFinished id).markAsFinished id = s.markAsFinished id :=
  finish_absentR _ id (finish_store_self s id)

end RedisCancellationRegistry

theorem InMemoryCancellationRegistry.setStatus_entry {α : Type}
    (s : InMemoryCancellationRegistry α) (id : String) (e : Entry α)
    (st : Status) (h : s.entries id = some e) :
    (s.setStatus id st).entries id = some ⟨st, e.dbIdentifier⟩ := by
  rw [setStatus_entries_self, h]
  rfl

theorem InMemoryCancellationRegistry.step_assoc_noHook {α : Type}
    (hook : Hook α) (s : InMemoryCancellationRegistry α) (id : String)
    (x : α) : (step hook s (Op.assoc id x)).2 = [] := by
  cases h : s.associateDbIdentifier id x <;> simp [step, h]

theorem RedisCancellationRegistry.step_assoc_noHookR {α : Type}
    (hook : Hook α) (s : RedisCancellationRegistry α) (id : String)
    (x : α) : (step hook s (Op.assoc id x)).2 = [] := by
  cases h : s.associateDbIdentifier id x <;> simp [step, h]

/-- C4: for every requestId whose entry is absent — never registered,
expired, or removed by `markAsFinished` — `getStatus(requestId)` returns
`'finished'`, never an error or a distinct not-found result, in both
backends. -/
theorem getStatus_absent_is_finished {α : Type}
    (s : InMemoryCancellationRegistry α) (rs : RedisCancellationRegistry α)
    (id : String) (hm : s.entries id = none)
    (hr : rs.store (RedisCancellationRegistry.getKey id) = none) :
    s.getStatus id = Status.finished ∧ rs.getStatus id = Status.finished :=
  ⟨InMemoryCancellationRegistry.getStatus_of_absent s id hm,
   RedisCancellationRegistry.getStatus_of_absentR rs id hr⟩

theorem getStatus_absent_is_finished_witness :
    memW.entries "missing-id" = none
  ∧ redisW.store (RedisCancellationRegistry.getKey "missing-id") = none
  ∧ memW.getStatus "missing-id" = Status.finished
  ∧ redisW.getStatus "missing-id" = Status.finished := by
  refine ⟨rfl, rfl, ?_⟩
  exact getStatus_absent_is_finished memW redisW "missing-id" rfl rfl

/-- C6: for every requestId whose entry is absent or whose status is not
`'active'`, `markForCancellation(requestId)` is a no-op in both backends:
the state is unchanged, no hook invocation is performed, and no error is
raised. -/
theorem markForCancellation_nonActive_noop {α : Type} (hook : Hook α)
    (s : InMemoryCancellationRegistry α) (rs : RedisCancellationRegistry α)
    (id : String) (hm : s.getStatus id ≠ Status.active)
    (hr : rs.getStatus id ≠ Status.active) :
    InMemoryCancellationRegistry.markForCancellation hook s id = ⟨s, [], false⟩
  ∧ RedisCancellationRegistry.markForCancellation hook rs id = ⟨rs, [], false⟩ :=
  ⟨InMemoryCancellationRegistry.mfc_noop hook s id hm,
   RedisCancellationRegistry.mfc_noopR hook rs id hr⟩

theorem markForCancellation_nonActive_noop_witness :
    memCancelledW.getStatus "r" ≠ Status.active
  ∧ redisW.getStatus "r" ≠ Status.active
  ∧ InMemoryCancellationRegistry.markForCancellation hookOkW memCancelledW "r"
      = ⟨memCancelledW, [], false⟩
  ∧ RedisCancellationRegistry.markForCancellation hookOkW redisW "r"
      = ⟨redisW, [], false⟩ := by
  refine ⟨by decide, by decide, ?_⟩
  exact markForCancellation_nonActive_noop hookOkW memCancelledW redisW "r"
    (by decide) (by decide)

/-- C9: `markAsFinished(requestId)` is idempotent and total in both
backends: calling it once or twice, or on an absent requestId, never
throws (it is a total function into the state), removes the entry, clears
the tracked expiry timer handle and cancels the scheduled timeout, and
afterwards `getStatus(requestId)` is `'finished'`. -/
theorem markAsFinished_idempotent_total {α : Type}
    (s : InMemoryCancellationRegistry α) (rs : RedisCancellationRegistry α)
    (id : String) :
    (s.markAsFinished id).markAsFinished id = s.markAsFinished id
  ∧ (s.entries id = none → s.markAsFinished id = s)
  ∧ (s.markAsFinished id).getStatus id = Status.finished
  ∧ (s.markAsFinished id).entries id = none
  ∧ (∀ e, s.entries id = some e → (s.markAsFinished id).timers id = none)
  ∧ (∀ e t, s.entries id = some e → s.timers id = some t →
      countTimer (id, t) s.pending ≤ 1 →
      countTimer (id, t) (s.markAsFinished id).pending = 0)
  ∧ (rs.markAsFinished id).markAsFinished id = rs.markAsFinished id
  ∧ (rs.store (RedisCancellationRegistry.getKey id) = none →
      rs.markAsFinished id = rs)
  ∧ (rs.markAsFinished id).getStatus id = Status.finished
  ∧ (rs.markAsFinished id).store (RedisCancellationRegistry.getKey id) = none := by
  refine ⟨InMemoryCancellationRegistry.finish_idem s id,
          fun h => InMemoryCancellationRegistry.finish_absent s id h,
          InMemoryCancellationRegistry.finish_getStatus s id,
          InMemoryCancellationRegistry.finish_entries_self s id,
          fun e he => InMemoryCancellationRegistry.finish_timers_self s id e he,
          ?_,
          RedisCancellationRegistry.finish_idemR rs id,
          fun h => RedisCancellationRegistry.finish_absentR rs id h,
          RedisCancellationRegistry.finish_getStatusR rs id,
          RedisCancellationRegistry.finish_store_self rs id⟩
  intro e t he ht hc
  rw [InMemoryCancellationRegistry.finish_pending s id e t he ht]
  exact countTimer_removeOne (id, t) s.pending hc

theorem markAsFinished_idempotent_total_witness :
    ((memW.register 0 "r").markAsFinished "r").getStatus "r" = Status.finished
  ∧ countTimer ("r", 0 + 3600) ((memW.register 0 "r").markAsFinished "r").pending = 0
  ∧ redisW.markAsFinished "r" = redisW := by
  refine ⟨(markAsFinished_idempotent_total (memW.register 0 "r") redisW "r").2.2.1,
          ?_, ?_⟩
  · exact (markAsFinished_idempotent_total (memW.register 0 "r") redisW
      "r").2.2.2.2.2.1 ⟨Status.active, none⟩ (0 + 3600) (by decide) (by decide)
      (by decide)
  · exact (markAsFinished_idempotent_total (memW.register 0 "r") redisW
      "r").2.2.2.2.2.2.2.1 rfl

/-- C10: for every existing entry, `associateDbIdentifier` attaches the
identifier while leaving the entry's status unchanged — whatever state it
is in, including `'cancelling'` and `'cancelled'` — and never invokes the
Cancellation Hook, in both backends. -/
theorem associate_preserves_status_noHook {α : Type} (hook : Hook α)
    (s : InMemoryCancellationRegistry α) (rs : RedisCancellationRegistry α)
    (id : String) (x : α) (e f : Entry α)
    (hm : s.entries id = some e)
    (hr : rs.store (RedisCancellationRegistry.getKey id) = some f) :
    (∃ s1, s.associateDbIdentifier id x = .ok s1
        ∧ s1.entries id = some ⟨e.status, some x⟩
        ∧ s1.getStatus id = e.status)
  ∧ (∃ rs1, rs.associateDbIdentifier id x = .ok rs1
        ∧ rs1.store (RedisCancellationRegistry.getKey id) = some ⟨f.status, some x⟩
        ∧ rs1.getStatus id = f.status)
  ∧ (InMemoryCancellationRegistry.step hook s (Op.assoc id x)).2 = []
  ∧ (RedisCancellationRegistry.step hook rs (Op.assoc id x)).2 = [] := by
  refine ⟨?_, ?_, InMemoryCancellationRegistry.step_assoc_noHook hook s id x,
          RedisCancellationRegistry.step_assoc_noHookR hook rs id x⟩
  · have hs1 : s.associateDbIdentifier id x
        = .ok { s with entries := fun k =>
                  if k = id then some ⟨e.status, some x⟩ else s.entries k } := by
      simp [InMemoryCancellationRegistry.associateDbIdentifier, hm]
    refine ⟨_, hs1, by simp, ?_⟩
    exact InMemoryCancellationRegistry.getStatus_of_entry _ id
      ⟨e.status, some x⟩ (by simp)
  · have hr1 : rs.associateDbIdentifier id x
        = .ok (rs.set (RedisCancellationRegistry.getKey id) ⟨f.status, some x⟩) := by
      simp [RedisCancellationRegistry.associateDbIdentifier, hr]
    refine ⟨_, hr1, RedisCancellationRegistry.set_store_self rs _ _, ?_⟩
    exact RedisCancellationRegistry.getStatus_of_entryR _ id ⟨f.status, some x⟩
      (RedisCancellationRegistry.set_store_self rs _ _)

theorem associate_preserves_status_noHook_witness :
    (∃ s1, memCancelledW.associateDbIdentifier "r" 7 = .ok s1
        ∧ s1.entries "r" = some ⟨Status.cancelled, some 7⟩
        ∧ s1.getStatus "r" = Status.cancelled)
  ∧ (InMemoryCancellationRegistry.step hookOkW memCancelledW (Op.assoc "r" 7)).2 = [] := by
  have h := associate_preserves_status_noHook hookOkW memCancelledW redisActiveW
    "r" 7 ⟨Status.cancelled, none⟩ ⟨Status.active, some 42⟩ (by decide) (by decide)
  exact ⟨h.1, h.2.2.1⟩

theorem minList_singleton (a : Nat) : minList [a] = some a := rfl

theorem minList_pair (a b : Nat) : minList [a, b] = some (min a b) := rfl

theorem InMemoryCancellationRegistry.cancelN_succ {α : Type} (hook : Hook α)
    (s : InMemoryCancellationRegistry α) (id : String) (n : Nat) :
    cancelN hook s id (n + 1)
      = ((cancelN hook (markForCancellation hook s id).state id n).1,
         (markForCancellation hook s id).hookCalls.length
           + (cancelN hook (markForCancellation hook s id).state id n).2) := rfl

theorem RedisCancellationRegistry.cancelN_succR {α : Type} (hook : Hook α)
    (s : RedisCancellationRegistry α) (id : String) (n : Nat) :
    cancelN hook s id (n + 1)
      = ((cancelN hook (markForCancellation hook s id).state id n).1,
         (markForCancellation hook s id).hookCalls.length
           + (cancelN hook (markForCancellation hook s id).state id n).2) := rfl

/-- C1 counterexample: with an active entry for `"r"` holding an operation
identifier, a hook that rejects makes `markForCancellation` propagate the
failure to its caller (`threw = true`) and leaves the entry's status at
`'cancelling'` — the claim demands a normal return and status
`'cancelled'`. -/
theorem hook_failure_claim_false :
    (InMemoryCancellationRegistry.markForCancellation hookErrW memActiveW "r").threw = true
  ∧ (InMemoryCancellationRegistry.markForCancellation hookErrW memActiveW
        "r").state.getStatus "r" = Status.cancelling
  ∧ ¬ ((InMemoryCancellationRegistry.markForCancellation hookErrW memActiveW
          "r").threw = false
      ∧ (InMemoryCancellationRegistry.markForCancellation hookErrW memActiveW
            "r").state.getStatus "r" = Status.cancelled) := by
  refine ⟨by decide, by decide, by decide⟩

/-- C1 (amended): on an active entry with an attached operation
identifier, when the hook resolves (with `true` or `false`)
`markForCancellation` advances the status to `'cancelled'` and returns
normally; when the hook throws or rejects, the failure propagates to the
caller of `markForCancellation` (where the middleware catches and logs
it) and the entry's status remains `'cancelling'` — in both backends. -/
theorem markForCancellation_hook_outcome {α : Type} (hook : Hook α)
    (s : InMemoryCancellationRegistry α) (rs : RedisCancellationRegistry α)
    (id : String) (x y : α)
    (hm : s.entries id = some ⟨Status.active, some x⟩)
    (hr : rs.store (RedisCancellationRegistry.getKey id)
        = some ⟨Status.active, some y⟩) :
    (∀ b, hook id x = .ok b →
        (InMemoryCancellationRegistry.markForCancellation hook s id).threw = false
      ∧ (InMemoryCancellationRegistry.markForCancellation hook s
            id).state.getStatus id = Status.cancelled)
  ∧ (hook id x = .err →
        (InMemoryCancellationRegistry.markForCancellation hook s id).threw = true
      ∧ (InMemoryCancellationRegistry.markForCancellation hook s
            id).state.getStatus id = Status.cancelling)
  ∧ (∀ b, hook id y = .ok b →
        (RedisCancellationRegistry.markForCancellation hook rs id).threw = false
      ∧ (RedisCancellationRegistry.markForCancellation hook rs
            id).state.getStatus id = Status.cancelled)
  ∧ (hook id y = .err →
        (RedisCancellationRegistry.markForCancellation hook rs id).threw = true
      ∧ (RedisCancellationRegistry.markForCancellation hook rs
            id).state.getStatus id = Status.cancelling) := by
  refine ⟨?_, ?_, ?_, ?_⟩
  · intro b hk
    rw [InMemoryCancellationRegistry.mfc_active_ok hook s id x b hm hk]
    refine ⟨rfl, ?_⟩
    have h1 := InMemoryCancellationRegistry.setStatus_entry s id
      ⟨Status.active, some x⟩ Status.cancelling hm
    have h2 := InMemoryCancellationRegistry.setStatus_entry _ id
      ⟨Status.cancelling, some x⟩ Status.cancelled h1
    exact InMemoryCancellationRegistry.getStatus_of_entry _ id _ h2
  · intro hk
    rw [InMemoryCancellationRegistry.mfc_active_err hook s id x hm hk]
    refine ⟨rfl, ?_⟩
    have h1 := InMemoryCancellationRegistry.setStatus_entry s id
      ⟨Status.active, some x⟩ Status.cancelling hm
    exact InMemoryCancellationRegistry.getStatus_of_entry _ id _ h1
  · intro b hk
    rw [RedisCancellationRegistry.mfc_active_okR hook rs id y b hr hk]
    exact ⟨rfl, RedisCancellationRegistry.getStatus_of_entryR _ id _
      (RedisCancellationRegistry.set_store_self _ _ _)⟩
  · intro hk
    rw [RedisCancellationRegistry.mfc_active_errR hook rs id y hr hk]
    exact ⟨rfl, RedisCancellationRegistry.getStatus_of_entryR _ id _
      (RedisCancellationRegistry.set_store_self _ _ _)⟩

theorem markForCancellation_hook_outcome_witness :
    (InMemoryCancellationRegistry.markForCancellation hookErrW memActiveW "r").threw = true
  ∧ (RedisCancellationRegistry.markForCancellation hookErrW redisActiveW
        "r").state.getStatus "r" = Status.cancelling := by
  have h := markForCancellation_hook_outcome hookErrW memActiveW redisActiveW
    "r" 42 42 (by decide) (by decide)
  exact ⟨(h.2.1 rfl).1, (h.2.2.2 rfl).2⟩

/-- C2: for an active entry with an attached operation identifier, the
hook is invoked exactly once across any number of successive
`markForCancellation(id)` calls — a later call observes `'cancelling'` or
`'cancelled'` and performs no hook invocation — in both backends
(interleavings are modelled by each call reading the state the previous
one left, which is the claim's own observing-based reading; for the
distributed backend the non-atomic read-then-write race is out of scope
and flagged in the design notes). -/
theorem cancellation_hook_exactly_once {α : Type} (hook : Hook α)
    (s : InMemoryCancellationRegistry α) (rs : RedisCancellationRegistry α)
    (id : String) (x y : α) (n m : Nat)
    (hm : s.entries id = some ⟨Status.active, some x⟩)
    (hr : rs.store (RedisCancellationRegistry.getKey id)
        = some ⟨Status.active, some y⟩) :
    (InMemoryCancellationRegistry.cancelN hook s id (n + 1)).2 = 1
  ∧ (RedisCancellationRegistry.cancelN hook rs id (m + 1)).2 = 1 := by
  constructor
  · have h1 := InMemoryCancellationRegistry.mfc_active_once hook s id x hm
    have h2 := InMemoryCancellationRegistry.cancelN_noop hook
      (InMemoryCancellationRegistry.markForCancellation hook s id).state id n h1.2
    simp [InMemoryCancellationRegistry.cancelN_succ, h2, h1.1]
  · have h1 := RedisCancellationRegistry.mfc_active_onceR hook rs id y hr
    have h2 := RedisCancellationRegistry.cancelN_noopR hook
      (RedisCancellationRegistry.markForCancellation hook rs id).state id m h1.2
    simp [RedisCancellationRegistry.cancelN_succR, h2, h1.1]

theorem cancellation_hook_exactly_once_witness :
    (InMemoryCancellationRegistry.cancelN hookOkW memActiveW "r" (1 + 1)).2 = 1
  ∧ (RedisCancellationRegistry.cancelN hookOkW redisActiveW "r" (1 + 1)).2 = 1 :=
  cancellation_hook_exactly_once hookOkW memActiveW redisActiveW "r" 42 42 1 1
    (by decide) (by decide)

/-- C3 counterexample: after `register "r"` and a completed cancellation
the entry's status is `'cancelled'`; a second `register "r"` — one of the
operations the claim quantifies over — replaces the entry with a fresh
`'active'` one, reverting the status to an earlier state. -/
theorem status_monotone_claim_false :
    memCancelledW.getStatus "r" = Status.cancelled
  ∧ (InMemoryCancellationRegistry.run hookOkW memCancelledW
        [Op.reg "r" 5]).getStatus "r" = Status.active
  ∧ Status.rank ((InMemoryCancellationRegistry.run hookOkW memCancelledW
        [Op.reg "r" 5]).getStatus "r")
      < Status.rank (memCancelledW.getStatus "r") := by
  refine ⟨by decide, by decide, by decide⟩

/-- C3 (amended): over every sequence of registry operations that does not
re-issue `register` for the requestId, the status only moves forward along
`active → cancelling → cancelled` / `active → finished` (status rank never
decreases) and no transition leaves `'finished'`; a repeated `register`
resets the entry to `'active'` and is the only reverting operation. -/
theorem status_monotone_without_reregister {α : Type} (hook : Hook α)
    (s : InMemoryCancellationRegistry α) (rs : RedisCancellationRegistry α)
    (ops rops : List (Op α)) (id : String)
    (h1 : ∀ op ∈ ops, op.isRegOn id = false)
    (h2 : ∀ op ∈ rops, op.isRegOn id = false) :
    (Status.rank (s.getStatus id)
        ≤ Status.rank ((InMemoryCancellationRegistry.run hook s ops).getStatus id))
  ∧ (s.getStatus id = Status.finished →
        (InMemoryCancellationRegistry.run hook s ops).getStatus id = Status.finished)
  ∧ (Status.rank (rs.getStatus id)
        ≤ Status.rank ((RedisCancellationRegistry.run hook rs rops).getStatus id))
  ∧ (rs.getStatus id = Status.finished →
        (RedisCancellationRegistry.run hook rs rops).getStatus id = Status.finished) := by
  have hmono := InMemoryCancellationRegistry.run_rank_mono hook s ops id h1
  have hrmono := RedisCancellationRegistry.run_rank_monoR hook rs rops id h2
  refine ⟨hmono, ?_, hrmono, ?_⟩
  · intro hf
    rw [hf] at hmono
    exact Status.rank_eq_three _ (Nat.le_antisymm (Status.rank_le_three _) hmono)
  · intro hf
    rw [hf] at hrmono
    exact Status.rank_eq_three _ (Nat.le_antisymm (Status.rank_le_three _) hrmono)

theorem status_monotone_without_reregister_witness :
    (∀ op ∈ ([Op.cancel "r", Op.finish "r"] : List (Op Nat)),
        op.isRegOn "r" = false)
  ∧ Status.rank (memActiveW.getStatus "r")
      ≤ Status.rank ((InMemoryCancellationRegistry.run hookOkW memActiveW
          [Op.cancel "r", Op.finish "r"]).getStatus "r") := by
  refine ⟨by decide, ?_⟩
  exact (status_monotone_without_reregister hookOkW memActiveW redisActiveW
    [Op.cancel "r", Op.finish "r"] [] "r" (by decide) (by decide)).1

/-- C5 counterexample: the entry for `"r"` has status `'cancelled'`, so no
active entry exists; the claim then demands `NotFound`, but
`associateDbIdentifier` succeeds — the code only signals `NotFound` on an
absent entry. -/
theorem associate_notFound_claim_false :
    memCancelledW.getStatus "r" = Status.cancelled
  ∧ isOkE (memCancelledW.associateDbIdentifier "r" 7) = true := by
  refine ⟨by decide, by decide⟩

/-- C5 (amended): `associateDbIdentifier` signals `NotFound` exactly when
no entry exists for the requestId at all (in any status); when an entry
exists — active or not — it attaches the identifier and succeeds, in both
backends.  (It is also not the only error-surfacing operation:
`markForCancellation` propagates a hook rejection, see C1.) -/
theorem associate_notFound_iff_absent {α : Type}
    (s : InMemoryCancellationRegistry α) (rs : RedisCancellationRegistry α)
    (id : String) (x : α) :
    (isOkE (s.associateDbIdentifier id x) = false ↔ s.entries id = none)
  ∧ (isOkE (rs.associateDbIdentifier id x) = false
      ↔ rs.store (RedisCancellationRegistry.getKey id) = none)
  ∧ (∀ e, s.entries id = some e →
      ∃ s1, s.associateDbIdentifier id x = .ok s1
        ∧ s1.entries id = some ⟨e.status, some x⟩)
  ∧ (∀ f, rs.store (RedisCancellationRegistry.getKey id) = some f →
      ∃ rs1, rs.associateDbIdentifier id x = .ok rs1
        ∧ rs1.store (RedisCancellationRegistry.getKey id)
            = some ⟨f.status, some x⟩) := by
  refine ⟨?_, ?_, ?_, ?_⟩
  · cases he : s.entries id <;>
      simp [InMemoryCancellationRegistry.associateDbIdentifier, he, isOkE]
  · cases he : rs.store (RedisCancellationRegistry.getKey id) <;>
      simp [RedisCancellationRegistry.associateDbIdentifier, he, isOkE]
  · intro e he
    refine ⟨{ s with entries := fun k =>
        if k = id then some ⟨e.status, some x⟩ else s.entries k }, ?_, ?_⟩
    · simp [InMemoryCancellationRegistry.associateDbIdentifier, he]
    · simp
  · intro f hf
    refine ⟨rs.set (RedisCancellationRegistry.getKey id) ⟨f.status, some x⟩,
        ?_, RedisCancellationRegistry.set_store_self rs _ _⟩
    simp [RedisCancellationRegistry.associateDbIdentifier, hf]

theorem associate_notFound_iff_absent_witness :
    (isOkE (memW.associateDbIdentifier "missing-id" 1) = false
      ↔ memW.entries "missing-id" = none)
  ∧ (∃ s1, memActiveW.associateDbIdentifier "r" 7 = .ok s1
      ∧ s1.entries "r" = some ⟨Status.active, some 7⟩) := by
  have h := associate_notFound_iff_absent memW redisW "missing-id" (1 : Nat)
  have h2 := associate_notFound_iff_absent memActiveW redisActiveW "r" (7 : Nat)
  exact ⟨h.1, h2.2.2.1 ⟨Status.active, some 42⟩ (by decide)⟩

/-- C7 counterexample: on a store write failure the distributed backend's
`register` itself rejects — the failure does reach its caller (the
middleware, which is what catches and logs it), refuting "never raises an
error to its caller ... for both backends". -/
theorem register_neverRaises_claim_false :
    isOkE (RedisCancellationRegistry.registerF WriteOutcome.fail redisW "r")
      = false := by
  decide

/-- C7 (amended): the distributed `register` propagates a store write
failure as a rejected promise; its caller in this repository, the
middleware registration step, catches it, logs
`'Failed to register request ID:'` and leaves the state unchanged, so the
failure never reaches HTTP-facing code and the call behaves as a no-op;
on success the entry is written; the local backend's `register` performs
no store write and always installs the `'active'` entry. -/
theorem register_writeFailure_logged_noop {α : Type}
    (s : RedisCancellationRegistry α) (id : String) :
    middlewareRegister WriteOutcome.fail s id
      = (s, ["Failed to register request ID:"])
  ∧ middlewareRegister WriteOutcome.ok s id = (s.register id, [])
  ∧ (∀ (m : InMemoryCancellationRegistry α) (now : Nat),
      (m.register now id).entries id = some ⟨Status.active, none⟩) := by
  refine ⟨rfl, rfl, ?_⟩
  intro m now
  exact InMemoryCancellationRegistry.register_entries_self m now id

/-- C8: a second `register(requestId)` while an entry exists preserves
uniqueness (the keyed map holds exactly one entry, replaced by a fresh
`'active'` one) and the effective expiry — the earliest scheduled deletion
timeout — is either reset to `now + ttl` or left exactly as it was.  (The
code takes the second branch: the first timeout is never cleared, so the
entry is still deleted at the original expiry.) -/
theorem register_twice_unique_expiry {α : Type}
    (s : InMemoryCancellationRegistry α) (id : String) (t1 t2 : Nat)
    (hp : firesFor id s.pending = []) (h12 : t1 ≤ t2) :
    ((s.register t1 id).register t2 id).entries id = some ⟨Status.active, none⟩
  ∧ ((((s.register t1 id).register t2 id).effExpiry id = some (t2 + s.ttl))
    ∨ (((s.register t1 id).register t2 id).effExpiry id
        = (s.register t1 id).effExpiry id)) := by
  refine ⟨InMemoryCancellationRegistry.register_entries_self _ t2 id, Or.inr ?_⟩
  have hp2 : ((s.register t1 id).register t2 id).pending
      = (id, t2 + s.ttl) :: (id, t1 + s.ttl) :: s.pending := rfl
  have hp1 : (s.register t1 id).pending = (id, t1 + s.ttl) :: s.pending := rfl
  unfold InMemoryCancellationRegistry.effExpiry
  rw [hp2, hp1, firesFor_cons_self, firesFor_cons_self, hp]
  rw [minList_pair, minList_singleton,
      min_eq_right (Nat.add_le_add_right h12 s.ttl)]

theorem register_twice_unique_expiry_witness :
    firesFor "r" memW.pending = []
  ∧ (0 : Nat) ≤ 5
  ∧ ((memW.register 0 "r").register 5 "r").entries "r"
      = some ⟨Status.active, none⟩
  ∧ ((((memW.register 0 "r").register 5 "r").effExpiry "r"
        = some (5 + memW.ttl))
    ∨ (((memW.register 0 "r").register 5 "r").effExpiry "r"
        = (memW.register 0 "r").effExpiry "r")) := by
  refine ⟨rfl, by decide, ?_⟩
  exact register_twice_unique_expiry memW "r" 0 5 rfl (by decide)

end Unreq
